import Mathlib

/-!
Shallow embedding of the tile-sampling, class-balancing, normalization and
augmentation pipeline of `final_sar.py` (Vessel-Detection repository).

Pixels are modelled as exact rationals, scenes and tiles as lists of rows.
Python/numpy basic slicing (negative indices wrap, out-of-range clips) is
modelled by `pySlice`; `numpy.min` on an empty array raises, modelled by
`tileMin` returning `none`.  Code that can raise is embedded in
`Except String`; the unbounded rejection-sampling `while True:` loop is
embedded with an explicit finite stream of random draws, `.ok none` meaning
the stream was exhausted without the loop ever finishing.
-/

namespace VesselSAR

abbrev Pixel := ℚ

/-- The xView3 no-data value `-32768.0` (`final_sar.py`, sentinel comparisons). -/
def sentinel : Pixel := -32768

abbrev Tile := List (List Pixel)

abbrev Scene := List (List Pixel)

/-- One row of the label dataframe, restricted to the columns the script uses. -/
structure LabelRow where
  detect_scene_row : Int
  detect_scene_column : Int
  is_vessel : Bool
deriving DecidableEq

/-- Normalize a Python slice endpoint against a list of length `n`:
negative indices count from the end, and the result is clamped to `[0, n]`. -/
def pyIndex (n : Nat) (i : Int) : Nat :=
  if i < 0 then ((n : Int) + i).toNat else min i.toNat n

/-- Python/numpy slice `xs[i:j]` (step 1). -/
def pySlice (xs : List α) (i j : Int) : List α :=
  let s := pyIndex xs.length i
  let t := pyIndex xs.length j
  (xs.drop s).take (t - s)

/-- 2-D numpy slice `scene[r0:r1, c0:c1]`. -/
def subset2d (scene : Scene) (r0 r1 c0 c1 : Int) : Tile :=
  (pySlice scene r0 r1).map fun row => pySlice row c0 c1

/-- `subset.min()`: `none` models the `ValueError` numpy raises on an empty array. -/
def tileMin (t : Tile) : Option Pixel :=
  match t.flatten with
  | [] => none
  | p :: ps => some (ps.foldl min p)

/-- `label = 1 if r.is_vessel else 0`. -/
def labelOf (r : LabelRow) : Nat := if r.is_vessel then 1 else 0

/-- `scene[row-128:row+128, col-128:col+128]` for a label record. -/
def extractWindow (scene : Scene) (r : LabelRow) : Tile :=
  subset2d scene (r.detect_scene_row - 128) (r.detect_scene_row + 128)
    (r.detect_scene_column - 128) (r.detect_scene_column + 128)

/-- The positive-extraction loop body of `final_sar.py` (lines 115-123) for one
scene: each label's window is cut, kept when `subset.min() != -32768.0`,
skipped when the minimum equals the sentinel; an empty window makes
`subset.min()` raise, which aborts the run. -/
def extractPositives (scene : Scene) : List LabelRow → Except String (List Tile × List Nat)
  | [] => .ok ([], [])
  | r :: rest =>
    match tileMin (extractWindow scene r) with
    | none => .error "zero-size array reduction"
    | some m =>
      if m = sentinel then extractPositives scene rest
      else
        match extractPositives scene rest with
        | .error e => .error e
        | .ok (Xs, ys) => .ok (extractWindow scene r :: Xs, labelOf r :: ys)

/-- A scene together with the label rows whose `scene_id` matches it. -/
structure SceneData where
  scene : Scene
  labels : List LabelRow
deriving DecidableEq

/-- The outer loop over `train_scenes.items()` accumulating `train_X`, `train_y`
(and identically `val_X`, `val_y`). -/
def extractAllPositives : List SceneData → Except String (List Tile × List Nat)
  | [] => .ok ([], [])
  | sd :: rest =>
    match extractPositives sd.scene sd.labels with
    | .error e => .error e
    | .ok (X1, y1) =>
      match extractAllPositives rest with
      | .error e => .error e
      | .ok (X2, y2) => .ok (X1 ++ X2, y1 ++ y2)

/-- `img_contains_label(x, y, id)` exactly as written (lines 126-133): the loop
iterates over the scene's label rows but the body reads the *outer-scope*
variable `r` (the last label bound by the earlier positive-extraction loops),
not its own iteration variable `row`. -/
def img_contains_label (x y : Int) (labels : List LabelRow) (r : LabelRow) : Bool :=
  labels.any fun _ =>
    decide (x - 128 < r.detect_scene_row) && decide (r.detect_scene_row < x + 128) &&
    decide (y - 128 < r.detect_scene_column) && decide (r.detect_scene_column < y + 128)

/-- `np.random.randint(lo, hi)` driven by a seed drawn from the stream: for
`lo < hi` the result is `lo + s % (hi - lo)`, which ranges over `[lo, hi)`. -/
def randint (lo hi : Int) (s : Nat) : Int := lo + (s : Int) % (hi - lo)

/-- `num_img_to_add = sum(train_y)-(len(train_y)-sum(train_y))` (line 136). -/
def num_img_to_add (y : List Nat) : Int :=
  (y.sum : Int) - ((y.length : Int) - (y.sum : Int))

/-- `num_img_to_add // len(train_scenes)`: Python floor division. -/
def negQuota (y : List Nat) (S : Nat) : Int := Int.fdiv (num_img_to_add y) (S : Int)

/-- The `while True:` rejection-sampling loop (lines 145-155), one accepted tile
per call.  The candidate is redrawn when `img_contains_label` fires (the `or`
short-circuits, so the minimum is not computed then) or when the minimum equals
the sentinel; `.ok none` means the draw stream ran out with no acceptance. -/
def sampleOne (scene : Scene) (labels : List LabelRow) (r : LabelRow) :
    List (Nat × Nat) → Except String (Option (Tile × List (Nat × Nat)))
  | [] => .ok none
  | s :: st =>
    let x := randint 128 ((scene.length : Int) - 128) s.1
    let y := randint 128 (((scene.headD []).length : Int) - 128) s.2
    if img_contains_label x y labels r then sampleOne scene labels r st
    else
      match tileMin (subset2d scene (x - 128) (x + 128) (y - 128) (y + 128)) with
      | none => .error "zero-size array reduction"
      | some m =>
        if m = sentinel then sampleOne scene labels r st
        else .ok (some (subset2d scene (x - 128) (x + 128) (y - 128) (y + 128), st))

/-- `for i in range(k):` around the while-loop: `k` accepted tiles for one
scene, each appended together with label `0`. -/
def addNegatives (scene : Scene) (labels : List LabelRow) (r : LabelRow) :
    Nat → List (Nat × Nat) → Except String (Option (List (Tile × Nat) × List (Nat × Nat)))
  | 0, st => .ok (some ([], st))
  | k+1, st =>
    match sampleOne scene labels r st with
    | .error e => .error e
    | .ok none => .ok none
    | .ok (some (t, st1)) =>
      match addNegatives scene labels r k st1 with
      | .error e => .error e
      | .ok none => .ok none
      | .ok (some (ps, st2)) => .ok (some ((t, 0) :: ps, st2))

/-- The outer negative-sampling loop over `train_scenes.items()` (line 139). -/
def negativesPhase (r : LabelRow) (k : Nat) :
    List SceneData → List (Nat × Nat) → Except String (Option (List (Tile × Nat) × List (Nat × Nat)))
  | [], st => .ok (some ([], st))
  | sd :: rest, st =>
    match addNegatives sd.scene sd.labels r k st with
    | .error e => .error e
    | .ok none => .ok none
    | .ok (some (ps1, st1)) =>
      match negativesPhase r k rest st1 with
      | .error e => .error e
      | .ok none => .ok none
      | .ok (some (ps2, st2)) => .ok (some (ps1 ++ ps2, st2))

/-- The value of the leaked variable `r` when the negative-sampling loop runs:
the last label row iterated by the positive-extraction loops. -/
def lastLabel (scenes : List SceneData) : Option LabelRow :=
  ((scenes.map SceneData.labels).flatten).getLast?

/-- Assembly of `train_X`, `train_y`: positive extraction over all scenes, then
`num_img_to_add // len(train_scenes)` negative samples per scene.  When the
quota is `0` or negative the `range` is empty and `r` is never read; a missing
`r` with a positive quota is the Python `NameError`; an exhausted draw stream
models the nonterminating `while True:`. -/
def buildTrain (scenes : List SceneData) (st : List (Nat × Nat)) :
    Except String (List Tile × List Nat) :=
  match extractAllPositives scenes with
  | .error e => .error e
  | .ok (X0, y0) =>
    let k := (negQuota y0 scenes.length).toNat
    if k = 0 then .ok (X0, y0)
    else
      match lastLabel scenes with
      | none => .error "NameError"
      | some r =>
        match negativesPhase r k scenes st with
        | .error e => .error e
        | .ok none => .error "nontermination"
        | .ok (some (ps, _)) =>
          .ok (X0 ++ ps.map Prod.fst, y0 ++ ps.map Prod.snd)

/-- `val_X`, `val_y` (lines 168-178): the same positive extraction, no balancing. -/
def buildVal (scenes : List SceneData) : Except String (List Tile × List Nat) :=
  extractAllPositives scenes

/-- All pixels of a tile set, flattened. -/
def allPixels (X : List Tile) : List Pixel := (X.map List.flatten).flatten

/-- `train_X.min()` over the whole assembled set; `none` models the raise on an
empty set. -/
def dsMin (X : List Tile) : Option Pixel :=
  match allPixels X with
  | [] => none
  | p :: ps => some (ps.foldl min p)

/-- `train_X.max()` over the whole assembled set. -/
def dsMax (X : List Tile) : Option Pixel :=
  match allPixels X with
  | [] => none
  | p :: ps => some (ps.foldl max p)

/-- One pixel of `(train_X - min) / (max - min)` (line 188).  When
`max - min = 0` the float division yields a non-finite value (NaN here, since
every pixel then equals the minimum): modelled as `none`; no error is raised. -/
def normalizePixel (m M x : Pixel) : Option Pixel :=
  if M - m = 0 then none else some ((x - m) / (M - m))

/-- The whole normalization step: global min and max of the set, then the
elementwise rescale.  numpy raises only when the set is empty (`.min()` of a
zero-size array); a zero range silently maps every pixel to `none` (NaN). -/
def normalizeDataset (X : List Tile) : Except String (List (List (List (Option Pixel)))) :=
  match dsMin X, dsMax X with
  | some m, some M => .ok (X.map fun t => t.map fun row => row.map (normalizePixel m M))
  | _, _ => .error "zero-size array reduction"

/-- Augmentation (lines 222-223): `train_X = np.concatenate((train_X,
data_augmentation(train_X).numpy()))`, `train_y = np.concatenate((train_y,
train_y))`, with the random per-tile transform abstracted as `aug`. -/
def augment (aug : Tile → Tile) (X : List Tile) (y : List Nat) : List Tile × List Nat :=
  (X ++ X.map aug, y ++ y)

/-- A 10x10 all-zero scene (every 256x256 window is clipped to the whole scene). -/
def zeroScene10 : Scene := List.replicate 10 (List.replicate 10 (0 : ℚ))

/-- A vessel label at (5, 5). -/
def labT : LabelRow := ⟨5, 5, true⟩

/-- A non-vessel label at (5, 5). -/
def lab0 : LabelRow := ⟨5, 5, false⟩

/-- A vessel label at (150, 150). -/
def labA : LabelRow := ⟨150, 150, true⟩

/-- A vessel label at (600, 600). -/
def labB : LabelRow := ⟨600, 600, true⟩

/-- One training scene with a single vessel label. -/
def csOne : List SceneData := [⟨zeroScene10, [labT]⟩]

/-- One training scene with two non-vessel labels (all positives carry label 0). -/
def csTwoZeros : List SceneData := [⟨zeroScene10, [lab0, lab0]⟩]

/-- One training scene with three non-vessel labels. -/
def csThreeZeros : List SceneData := [⟨zeroScene10, [lab0, lab0, lab0]⟩]

/-- Two training scenes: one vessel label, and a scene with no labels at all. -/
def csSplit : List SceneData := [⟨zeroScene10, [labT]⟩, ⟨zeroScene10, []⟩]

/-- A 300x300 all-zero scene. -/
def scene300 : Scene := List.replicate 300 (List.replicate 300 (0 : ℚ))

/-- A 150x150 all-zero scene. -/
def scene150 : Scene := List.replicate 150 (List.replicate 150 (0 : ℚ))

/-- A 300x300 scene filled entirely with the no-data sentinel. -/
def sentScene : Scene := List.replicate 300 (List.replicate 300 sentinel)

/-- A label whose window sticks out above the top edge of `scene300`. -/
def labEdgeLow : LabelRow := ⟨10, 150, true⟩

/-- A label whose window sticks out past the bottom and left edges of `scene150`. -/
def labEdgeHigh : LabelRow := ⟨140, 75, true⟩

/-- A one-tile dataset whose two pixel values are 0 and 2. -/
def dsSmall : List Tile := [[[0, 2]]]

/-- A one-tile dataset with every pixel equal to 5 (zero dynamic range). -/
def dsConst : List Tile := [[[5, 5], [5, 5]]]

/-- The 5x5 all-zero tile the negative sampler cuts from `zeroScene10` at
center (133, 133). -/
def tileNeg : Tile := List.replicate 5 (List.replicate 5 (0 : ℚ))

/-- Equality of embedded run results is decidable, so concrete pipeline runs
can be settled by `decide`. -/
instance {ε α : Type _} [DecidableEq ε] [DecidableEq α] : DecidableEq (Except ε α) :=
  fun a b =>
    match a, b with
    | .error e1, .error e2 =>
      if h : e1 = e2 then .isTrue (by rw [h]) else .isFalse fun hc => h (by cases hc; rfl)
    | .error _, .ok _ => .isFalse fun hc => Except.noConfusion hc
    | .ok _, .error _ => .isFalse fun hc => Except.noConfusion hc
    | .ok v1, .ok v2 =>
      if h : v1 = v2 then .isTrue (by rw [h]) else .isFalse fun hc => h (by cases hc; rfl)

/-! ### Generic lemmas about the embedding -/

theorem pySlice_mem {xs : List α} {i j : Int} {a : α} (h : a ∈ pySlice xs i j) : a ∈ xs :=
  List.mem_of_mem_drop (List.mem_of_mem_take h)

theorem pySlice_length_of_bounds {xs : List α} {i j : Int}
    (h0 : 0 ≤ i) (hij : i ≤ j) (hj : j ≤ (xs.length : Int)) :
    (pySlice xs i j).length = (j - i).toNat := by
  simp only [pySlice, pyIndex]
  rw [if_neg (by omega), if_neg (by omega)]
  simp only [List.length_take, List.length_drop]
  omega

theorem foldl_min_le_init : ∀ (ps : List ℚ) (a : ℚ), ps.foldl min a ≤ a := by
  intro ps
  induction ps with
  | nil => intro a; simp
  | cons c cs ih =>
    intro a
    calc (c :: cs).foldl min a = cs.foldl min (min a c) := rfl
    _ ≤ min a c := ih (min a c)
    _ ≤ a := min_le_left a c

theorem foldl_min_le_mem : ∀ (ps : List ℚ) (a x : ℚ), x ∈ ps → ps.foldl min a ≤ x := by
  intro ps
  induction ps with
  | nil => intro a x hx; cases hx
  | cons c cs ih =>
    intro a x hx
    rcases List.mem_cons.mp hx with h | h
    · subst h
      calc (x :: cs).foldl min a = cs.foldl min (min a x) := rfl
      _ ≤ min a x := foldl_min_le_init cs (min a x)
      _ ≤ x := min_le_right a x
    · exact ih (min a c) x h

theorem le_foldl_max_init : ∀ (ps : List ℚ) (a : ℚ), a ≤ ps.foldl max a := by
  intro ps
  induction ps with
  | nil => intro a; simp
  | cons c cs ih =>
    intro a
    calc a ≤ max a c := le_max_left a c
    _ ≤ cs.foldl max (max a c) := ih (max a c)
    _ = (c :: cs).foldl max a := rfl

theorem le_foldl_max_mem : ∀ (ps : List ℚ) (a x : ℚ), x ∈ ps → x ≤ ps.foldl max a := by
  intro ps
  induction ps with
  | nil => intro a x hx; cases hx
  | cons c cs ih =>
    intro a x hx
    rcases List.mem_cons.mp hx with h | h
    · subst h
      calc x ≤ max a x := le_max_right a x
      _ ≤ cs.foldl max (max a x) := le_foldl_max_init cs (max a x)
      _ = (x :: cs).foldl max a := rfl
    · exact ih (max a c) x h

theorem foldl_min_const : ∀ (ps : List ℚ) (c : ℚ), (∀ p ∈ ps, p = c) → ps.foldl min c = c := by
  intro ps
  induction ps with
  | nil => intro c _; rfl
  | cons q qs ih =>
    intro c hall
    have hq : q = c := hall q (List.mem_cons_self q qs)
    subst hq
    have : min q q = q := min_self q
    calc (q :: qs).foldl min q = qs.foldl min (min q q) := rfl
    _ = qs.foldl min q := by rw [this]
    _ = q := ih q fun p hp => hall p (List.mem_cons_of_mem q hp)

theorem tileMin_of_const {t : Tile} {c : Pixel}
    (h1 : t.flatten ≠ []) (h2 : ∀ p ∈ t.flatten, p = c) : tileMin t = some c := by
  unfold tileMin
  cases hfl : t.flatten with
  | nil => exact absurd hfl h1
  | cons p ps =>
    have hp : p = c := h2 p (by rw [hfl]; exact List.mem_cons_self p ps)
    subst hp
    have : ps.foldl min p = p :=
      foldl_min_const ps p fun q hq => h2 q (by rw [hfl]; exact List.mem_cons_of_mem p hq)
    show some (ps.foldl min p) = some p
    rw [this]

theorem randint_bounds {lo hi : Int} (s : Nat) (h : lo < hi) :
    lo ≤ randint lo hi s ∧ randint lo hi s < hi := by
  unfold randint
  have hpos : 0 < hi - lo := by omega
  have h1 : 0 ≤ (s : Int) % (hi - lo) := Int.emod_nonneg s (by omega)
  have h2 : (s : Int) % (hi - lo) < hi - lo := Int.emod_lt_of_pos s hpos
  omega

/-! ### Claim theorems -/

/-- Claim C1.  The claim states that every candidate accepted by the negative
sampler is at least 128 pixels away (on some axis) from every label center of
its scene.  The code violates it: `img_contains_label` reads the leaked
outer-scope variable `r` (the last label ever iterated, here `labB`) instead of
its own loop variable, so a candidate sitting exactly on the center of label
`labA` is not rejected as long as the leaked `r` is far away. -/
theorem c1_overlap_check_reads_leaked_variable :
    img_contains_label 150 150 [labA, labB] labB = false ∧
    lastLabel [⟨zeroScene10, [labA, labB]⟩] = some labB ∧
    150 - 128 < labA.detect_scene_row ∧ labA.detect_scene_row < 150 + 128 ∧
    150 - 128 < labA.detect_scene_column ∧ labA.detect_scene_column < 150 + 128 := by
  refine ⟨by decide, by decide, by decide, by decide, by decide, by decide⟩

/-- Claim C5.  On a tile set whose global max equals its global min the
normalizer does not fail with a reported error: it returns normally and every
output pixel is the NaN marker (`none`), produced by the `0/0` float division. -/
theorem c5_zero_range_normalization_yields_nan_not_error :
    normalizeDataset dsConst = .ok [[[none, none], [none, none]]] := by
  unfold normalizeDataset
  rw [show dsMin dsConst = some 5 from by decide, show dsMax dsConst = some 5 from by decide]
  show Except.ok (dsConst.map fun t => t.map fun row => row.map (normalizePixel 5 5)) = _
  congr 1
  simp [dsConst, normalizePixel]

theorem pyIndex_le (n : Nat) (i : Int) : pyIndex n i ≤ n := by
  unfold pyIndex; split <;> omega

theorem pySlice_length (xs : List α) (i j : Int) :
    (pySlice xs i j).length =
      min (pyIndex xs.length j - pyIndex xs.length i) (xs.length - pyIndex xs.length i) := by
  simp [pySlice, List.length_take, List.length_drop]

theorem pySlice_ne_nil {xs : List α} {i j : Int}
    (h : pyIndex xs.length i < pyIndex xs.length j) : pySlice xs i j ≠ [] := by
  have hj := pyIndex_le xs.length j
  have := pySlice_length xs i j
  intro hnil
  rw [hnil] at this
  simp at this
  omega

theorem tileMin_subset2d_const {scene : Scene} {c : Pixel}
    (hall : ∀ row ∈ scene, ∀ p ∈ row, p = c)
    (r0 r1 c0 c1 : Int)
    (hr : pyIndex scene.length r0 < pyIndex scene.length r1)
    (hc : ∀ row ∈ scene, pyIndex row.length c0 < pyIndex row.length c1) :
    tileMin (subset2d scene r0 r1 c0 c1) = some c := by
  apply tileMin_of_const
  · cases hrows : pySlice scene r0 r1 with
    | nil => exact absurd hrows (pySlice_ne_nil hr)
    | cons row0 rest =>
      have hmem : row0 ∈ scene := pySlice_mem (hrows ▸ List.mem_cons_self row0 rest)
      intro hnil
      have : pySlice row0 c0 c1 = [] := by
        have := List.flatten_eq_nil_iff.mp hnil (pySlice row0 c0 c1)
        exact this (by rw [subset2d, hrows]; exact List.mem_map_of_mem _ (List.mem_cons_self row0 rest))
      exact absurd this (pySlice_ne_nil (hc row0 hmem))
  · intro p hp
    obtain ⟨l, hl, hpl⟩ := List.mem_flatten.mp hp
    obtain ⟨row, hrow, hfl⟩ := List.mem_map.mp hl
    have hrow' : row ∈ scene := pySlice_mem hrow
    exact hall row hrow' p (pySlice_mem (hfl ▸ hpl))

theorem scene300_length : scene300.length = 300 := by
  unfold scene300; exact List.length_replicate 300 _

theorem scene150_length : scene150.length = 150 := by
  unfold scene150; exact List.length_replicate 150 _

theorem scene150_rows : ∀ row ∈ scene150, row = List.replicate 150 (0 : ℚ) :=
  fun _ h => List.eq_of_mem_replicate h

/-- The top-edge label's window on `scene300` is the empty numpy slice. -/
theorem edgeLow_window_empty : extractWindow scene300 labEdgeLow = [] := by
  have h1 : pyIndex scene300.length ((10 : Int) - 128) = 182 := by
    rw [scene300_length]; decide
  have h2 : pyIndex scene300.length ((10 : Int) + 128) = 138 := by
    rw [scene300_length]; decide
  show (pySlice scene300 ((10 : Int) - 128) ((10 : Int) + 128)).map
    (fun row => pySlice row ((150 : Int) - 128) ((150 : Int) + 128)) = []
  have : pySlice scene300 ((10 : Int) - 128) ((10 : Int) + 128) = [] := by
    show (scene300.drop (pyIndex scene300.length ((10 : Int) - 128))).take
      (pyIndex scene300.length ((10 : Int) + 128) -
        pyIndex scene300.length ((10 : Int) - 128)) = []
    rw [h1, h2]
    rfl
  rw [this]
  rfl

/-- The bottom-edge label's window on `scene150` is a clipped all-zero tile. -/
theorem edgeHigh_window_min : tileMin (extractWindow scene150 labEdgeHigh) = some 0 := by
  show tileMin (subset2d scene150 ((140 : Int) - 128) ((140 : Int) + 128)
    ((75 : Int) - 128) ((75 : Int) + 128)) = some 0
  apply tileMin_subset2d_const
  · intro row hrow p hp
    rw [scene150_rows row hrow] at hp
    exact List.eq_of_mem_replicate hp
  · rw [scene150_length]; decide
  · intro row hrow
    rw [scene150_rows row hrow, List.length_replicate]
    decide

/-- Claim C8.  The claim states that a label whose centered 256x256 window
falls outside the scene bounds is skipped and never raises.  The code violates
both halves: for `labEdgeLow` (row 10 of a 300-row scene) the negative slice
start wraps past the stop, numpy yields an empty array and `subset.min()`
raises; for `labEdgeHigh` (row 140, col 75 of a 150x150 scene) the slices clip
and a 138x53 tile is appended rather than the record being skipped. -/
theorem c8_out_of_bounds_window_raises_or_appends_clipped :
    extractPositives scene300 [labEdgeLow] = .error "zero-size array reduction" ∧
    extractPositives scene150 [labEdgeHigh] =
      .ok ([extractWindow scene150 labEdgeHigh], [1]) ∧
    (extractWindow scene150 labEdgeHigh).map List.length = List.replicate 138 53 := by
  refine ⟨?_, ?_, ?_⟩
  · simp only [extractPositives, edgeLow_window_empty]
    rfl
  · simp only [extractPositives, edgeHigh_window_min]
    rw [if_neg (by decide : ¬ (0 : ℚ) = sentinel)]
    rfl
  · rw [List.eq_replicate_iff]
    constructor
    · rw [List.length_map]
      show (subset2d scene150 ((140 : Int) - 128) ((140 : Int) + 128)
        ((75 : Int) - 128) ((75 : Int) + 128)).length = 138
      simp only [subset2d]
      rw [List.length_map, pySlice_length, scene150_length]
      decide
    · intro b hb
      obtain ⟨row, hrow, hlen⟩ := List.mem_map.mp hb
      obtain ⟨row', hrow', hfl⟩ := List.mem_map.mp hrow
      have : row' ∈ scene150 := pySlice_mem hrow'
      subst hfl
      rw [← hlen, pySlice_length, scene150_rows row' this, List.length_replicate]
      decide

/-- Claim C6.  Augmentation doubles the dataset: the tile array and the label
array both end up with length `2*n`, and for every `i < n` the label at `i`
equals the label at `i + n` (synthetic tiles inherit their sources' labels). -/
theorem c6_augmentation_doubles_with_lockstep_labels (aug : Tile → Tile)
    (X : List Tile) (y : List Nat) (h : y.length = X.length) :
    (augment aug X y).1.length = 2 * X.length ∧
    (augment aug X y).2.length = 2 * X.length ∧
    ∀ i, i < X.length →
      (augment aug X y).2.getD i 0 = (augment aug X y).2.getD (i + X.length) 0 := by
  refine ⟨?_, ?_, ?_⟩
  · simp [augment]; omega
  · simp [augment]; omega
  · intro i hi
    show (y ++ y).getD i 0 = (y ++ y).getD (i + X.length) 0
    rw [List.getD_append y y 0 i (by omega),
      List.getD_append_right y y 0 (i + X.length) (by omega)]
    congr 1
    omega

/-- Witness for C6 at a concrete one-element dataset with `aug = id`. -/
theorem c6_augmentation_doubles_with_lockstep_labels_witness :
    ([7] : List Nat).length = ([[[(1 : ℚ)]]] : List Tile).length ∧
    (augment id [[[(1 : ℚ)]]] [7]).1.length = 2 * ([[[(1 : ℚ)]]] : List Tile).length ∧
    (augment id [[[(1 : ℚ)]]] [7]).2.getD 0 0 =
      (augment id [[[(1 : ℚ)]]] [7]).2.getD (0 + ([[[(1 : ℚ)]]] : List Tile).length) 0 :=
  ⟨by decide,
    (c6_augmentation_doubles_with_lockstep_labels id [[[(1 : ℚ)]]] [7] (by decide)).1,
    (c6_augmentation_doubles_with_lockstep_labels id [[[(1 : ℚ)]]] [7] (by decide)).2.2
      0 (by decide)⟩

/-- Claim C7.  When the tile set's global max `M` differs from its global min
`m`, every normalized pixel `(x-m)/(M-m)` lies in `[0,1]`, and multiplying by
`(M-m)` and adding `m` reconstructs the original pixel exactly over ℚ. -/
theorem c7_normalizer_outputs_unit_interval_and_roundtrip
    (X : List Tile) (m M x : Pixel)
    (hm : dsMin X = some m) (hM : dsMax X = some M) (hne : M ≠ m)
    (hx : x ∈ allPixels X) :
    normalizePixel m M x = some ((x - m) / (M - m)) ∧
    0 ≤ (x - m) / (M - m) ∧ (x - m) / (M - m) ≤ 1 ∧
    ((x - m) / (M - m)) * (M - m) + m = x := by
  cases hl : allPixels X with
  | nil => rw [dsMin, hl] at hm; cases hm
  | cons p ps =>
    rw [dsMin, hl] at hm
    rw [dsMax, hl] at hM
    have hmx : m ≤ x := by
      cases hm
      rcases List.mem_cons.mp (hl ▸ hx) with h | h
      · exact h ▸ foldl_min_le_init ps p
      · exact foldl_min_le_mem ps p x h
    have hxM : x ≤ M := by
      cases hM
      rcases List.mem_cons.mp (hl ▸ hx) with h | h
      · exact h ▸ le_foldl_max_init ps p
      · exact le_foldl_max_mem ps p x h
    have hlt : m < M := lt_of_le_of_ne (le_trans hmx hxM) (Ne.symm hne)
    have hpos : 0 < M - m := by linarith
    have hsub : M - m ≠ 0 := ne_of_gt hpos
    refine ⟨by rw [normalizePixel, if_neg hsub], ?_, ?_, ?_⟩
    · exact div_nonneg (by linarith) (le_of_lt hpos)
    · exact (div_le_one hpos).mpr (by linarith)
    · rw [div_mul_cancel₀ _ hsub]; ring

/-- Witness for C7 at the dataset `[[[0, 2]]]` and the pixel `2`. -/
theorem c7_normalizer_outputs_unit_interval_and_roundtrip_witness :
    dsMin dsSmall = some 0 ∧ dsMax dsSmall = some 2 ∧ (2 : ℚ) ∈ allPixels dsSmall ∧
    (normalizePixel 0 2 2 = some ((2 - 0) / (2 - 0)) ∧
      0 ≤ ((2 : ℚ) - 0) / (2 - 0) ∧ ((2 : ℚ) - 0) / (2 - 0) ≤ 1 ∧
      (((2 : ℚ) - 0) / (2 - 0)) * (2 - 0) + 0 = 2) :=
  ⟨by decide, by decide, by decide,
    c7_normalizer_outputs_unit_interval_and_roundtrip dsSmall 0 2 2
      (by decide) (by decide) (by decide) (by decide)⟩

/-! ### Structural facts about the pipeline -/

theorem extractPositives_ok_facts {scene : Scene} :
    ∀ {ls : List LabelRow} {Xs : List Tile} {ys : List Nat},
      extractPositives scene ls = .ok (Xs, ys) →
      Xs.length = ys.length ∧ (∀ l ∈ ys, l = 0 ∨ l = 1) ∧
        (∀ t ∈ Xs, tileMin t ≠ some sentinel)
  | [], Xs, ys, h => by
    rw [extractPositives] at h
    cases h
    exact ⟨rfl, by simp, by simp⟩
  | r :: rest, Xs, ys, h => by
    rw [extractPositives] at h
    split at h
    · cases h
    next m hm =>
      split at h
      · exact extractPositives_ok_facts h
      next hs =>
        split at h
        · cases h
        next Xs0 ys0 hrec =>
          cases h
          obtain ⟨h1, h2, h3⟩ := extractPositives_ok_facts hrec
          refine ⟨by simp [h1], ?_, ?_⟩
          · intro l hl
            rcases List.mem_cons.mp hl with hl | hl
            · subst hl
              unfold labelOf
              split
              · exact Or.inr rfl
              · exact Or.inl rfl
            · exact h2 l hl
          · intro t ht
            rcases List.mem_cons.mp ht with ht | ht
            · subst ht
              rw [hm]
              intro hc
              exact hs (Option.some.inj hc)
            · exact h3 t ht

theorem extractAllPositives_ok_facts :
    ∀ {scenes : List SceneData} {Xs : List Tile} {ys : List Nat},
      extractAllPositives scenes = .ok (Xs, ys) →
      Xs.length = ys.length ∧ (∀ l ∈ ys, l = 0 ∨ l = 1) ∧
        (∀ t ∈ Xs, tileMin t ≠ some sentinel)
  | [], Xs, ys, h => by
    rw [extractAllPositives] at h
    cases h
    exact ⟨rfl, by simp, by simp⟩
  | sd :: rest, Xs, ys, h => by
    rw [extractAllPositives] at h
    split at h
    · cases h
    next X1 y1 h1 =>
      split at h
      · cases h
      next X2 y2 h2 =>
        cases h
        obtain ⟨ha1, ha2, ha3⟩ := extractPositives_ok_facts h1
        obtain ⟨hb1, hb2, hb3⟩ := extractAllPositives_ok_facts h2
        refine ⟨by simp [ha1, hb1], ?_, ?_⟩
        · intro l hl
          rcases List.mem_append.mp hl with hl | hl
          · exact ha2 l hl
          · exact hb2 l hl
        · intro t ht
          rcases List.mem_append.mp ht with ht | ht
          · exact ha3 t ht
          · exact hb3 t ht

theorem sampleOne_ok_some {scene : Scene} {labels : List LabelRow} {r : LabelRow} :
    ∀ {st : List (Nat × Nat)} {t : Tile} {st2 : List (Nat × Nat)},
      sampleOne scene labels r st = .ok (some (t, st2)) → tileMin t ≠ some sentinel
  | [], t, st2, h => by rw [sampleOne] at h; cases h
  | s :: st, t, st2, h => by
    rw [sampleOne] at h
    split at h
    · exact sampleOne_ok_some h
    · split at h
      · cases h
      next m hm =>
        split at h
        · exact sampleOne_ok_some h
        next hs =>
          cases h
          rw [hm]
          intro hc
          exact hs (Option.some.inj hc)

theorem addNegatives_ok_some {scene : Scene} {labels : List LabelRow} {r : LabelRow} :
    ∀ {k : Nat} {st : List (Nat × Nat)} {ps : List (Tile × Nat)} {st2 : List (Nat × Nat)},
      addNegatives scene labels r k st = .ok (some (ps, st2)) →
      ps.length = k ∧ ∀ p ∈ ps, p.2 = 0 ∧ tileMin p.1 ≠ some sentinel
  | 0, st, ps, st2, h => by
    rw [addNegatives] at h
    cases h
    exact ⟨rfl, by simp⟩
  | k+1, st, ps, st2, h => by
    rw [addNegatives] at h
    split at h
    · cases h
    · cases h
    next t st1 hone =>
      split at h
      · cases h
      · cases h
      next ps1 st3 hrec =>
        cases h
        obtain ⟨h1, h2⟩ := addNegatives_ok_some hrec
        refine ⟨by simp [h1], ?_⟩
        intro p hp
        rcases List.mem_cons.mp hp with hp | hp
        · subst hp
          exact ⟨rfl, sampleOne_ok_some hone⟩
        · exact h2 p hp

theorem negativesPhase_ok_some {r : LabelRow} {k : Nat} :
    ∀ {scenes : List SceneData} {st : List (Nat × Nat)} {ps : List (Tile × Nat)}
      {st2 : List (Nat × Nat)},
      negativesPhase r k scenes st = .ok (some (ps, st2)) →
      ps.length = scenes.length * k ∧ ∀ p ∈ ps, p.2 = 0 ∧ tileMin p.1 ≠ some sentinel
  | [], st, ps, st2, h => by
    rw [negativesPhase] at h
    cases h
    exact ⟨by simp, by simp⟩
  | sd :: rest, st, ps, st2, h => by
    rw [negativesPhase] at h
    split at h
    · cases h
    · cases h
    next ps1 st1 hadd =>
      split at h
      · cases h
      · cases h
      next ps2 st3 hrec =>
        cases h
        obtain ⟨ha1, ha2⟩ := addNegatives_ok_some hadd
        obtain ⟨hb1, hb2⟩ := negativesPhase_ok_some hrec
        constructor
        · simp only [List.length_append, ha1, hb1, List.length_cons]
          ring
        · intro p hp
          rcases List.mem_append.mp hp with hp | hp
          · exact ha2 p hp
          · exact hb2 p hp

theorem buildTrain_ok_decomp {scenes : List SceneData} {st : List (Nat × Nat)}
    {X : List Tile} {y : List Nat} (h : buildTrain scenes st = .ok (X, y)) :
    ∃ (X0 : List Tile) (y0 : List Nat) (ps : List (Tile × Nat)),
      extractAllPositives scenes = .ok (X0, y0) ∧
      X = X0 ++ ps.map Prod.fst ∧ y = y0 ++ ps.map Prod.snd ∧
      ps.length = scenes.length * (negQuota y0 scenes.length).toNat ∧
      ∀ p ∈ ps, p.2 = 0 ∧ tileMin p.1 ≠ some sentinel := by
  rw [buildTrain] at h
  cases hex : extractAllPositives scenes with
  | error e => rw [hex] at h; cases h
  | ok p =>
    obtain ⟨X0, y0⟩ := p
    rw [hex] at h
    dsimp only at h
    by_cases hk : (negQuota y0 scenes.length).toNat = 0
    · rw [if_pos hk] at h
      cases h
      exact ⟨X, y, [], rfl, by simp, by simp, by rw [hk]; simp, by simp⟩
    · rw [if_neg hk] at h
      cases hll : lastLabel scenes with
      | none => rw [hll] at h; cases h
      | some rr =>
        rw [hll] at h
        dsimp only at h
        cases hph : negativesPhase rr (negQuota y0 scenes.length).toNat scenes st with
        | error e => rw [hph] at h; cases h
        | ok o =>
          cases o with
          | none => rw [hph] at h; cases h
          | some pr =>
            obtain ⟨ps, st2⟩ := pr
            rw [hph] at h
            dsimp only at h
            cases h
            obtain ⟨h1, h2⟩ := negativesPhase_ok_some hph
            exact ⟨X0, y0, ps, rfl, rfl, rfl, h1, h2⟩

theorem count_one_eq_sum :
    ∀ {y : List Nat}, (∀ l ∈ y, l = 0 ∨ l = 1) → y.count 1 = y.sum
  | [], _ => rfl
  | l :: ls, h => by
    have hl := h l (List.mem_cons_self l ls)
    have hrec := count_one_eq_sum fun x hx => h x (List.mem_cons_of_mem l hx)
    rcases hl with hl | hl <;> subst hl
    · simp [List.count_cons, List.sum_cons, hrec]
    · simp [List.count_cons, List.sum_cons, hrec]
      omega

theorem count_zero_add_count_one :
    ∀ {y : List Nat}, (∀ l ∈ y, l = 0 ∨ l = 1) → y.count 0 + y.count 1 = y.length
  | [], _ => rfl
  | l :: ls, h => by
    have hl := h l (List.mem_cons_self l ls)
    have hrec := count_zero_add_count_one fun x hx => h x (List.mem_cons_of_mem l hx)
    rcases hl with hl | hl <;> subst hl <;>
      simp [List.count_cons, List.length_cons] <;> omega

theorem count_all_zero :
    ∀ {l : List Nat}, (∀ x ∈ l, x = 0) → l.count 0 = l.length ∧ l.count 1 = 0
  | [], _ => ⟨rfl, rfl⟩
  | x :: xs, h => by
    have hx := h x (List.mem_cons_self x xs)
    subst hx
    have hrec := count_all_zero fun z hz => h z (List.mem_cons_of_mem _ hz)
    simp [List.count_cons, hrec.1, hrec.2]

/-- Claim C2 (amended).  The claim as stated is false when the pre-balancing
negatives outnumber the positives (see the counterexample); when the positive
count is at least the negative count -- the situation the balancing loop was
written for -- the final class imbalance is at most the number of scenes. -/
theorem c2_balance_within_scene_count_when_positives_dominate
    {scenes : List SceneData} {st : List (Nat × Nat)} {X0 : List Tile} {y0 : List Nat}
    {X : List Tile} {y : List Nat}
    (hS : scenes ≠ [])
    (h0 : extractAllPositives scenes = .ok (X0, y0))
    (hbal : y0.count 0 ≤ y0.count 1)
    (h : buildTrain scenes st = .ok (X, y)) :
    |(y.count 1 : Int) - (y.count 0 : Int)| ≤ (scenes.length : Int) := by
  obtain ⟨X0', y0', ps, hex, hX, hy, hlen, hall⟩ := buildTrain_ok_decomp h
  rw [h0] at hex
  cases hex
  subst hy
  have hS0 : 0 < scenes.length := List.length_pos.mpr hS
  obtain ⟨_, h01, _⟩ := extractAllPositives_ok_facts h0
  have hsum : y0.count 1 = y0.sum := count_one_eq_sum h01
  have hlen01 : y0.count 0 + y0.count 1 = y0.length := count_zero_add_count_one h01
  have hz : ∀ x ∈ ps.map Prod.snd, x = 0 := by
    intro x hx
    obtain ⟨p, hp, he⟩ := List.mem_map.mp hx
    rw [← he]
    exact (hall p hp).1
  have hcz := count_all_zero hz
  have hnum : num_img_to_add y0 = (y0.count 1 : Int) - (y0.count 0 : Int) := by
    unfold num_img_to_add
    rw [← hsum]
    omega
  have hq : (negQuota y0 scenes.length).toNat = (y0.count 1 - y0.count 0) / scenes.length := by
    have hd : ((y0.count 1 - y0.count 0 : Nat) : Int) = (y0.count 1 : Int) - (y0.count 0 : Int) := by
      omega
    have : negQuota y0 scenes.length =
        (((y0.count 1 - y0.count 0) / scenes.length : Nat) : Int) := by
      unfold negQuota
      rw [hnum, ← hd, Int.fdiv_eq_ediv _ (by omega), Int.ofNat_ediv]
    rw [this]
    exact Int.toNat_natCast _
  have hc1 : (y0 ++ ps.map Prod.snd).count 1 = y0.count 1 := by
    rw [List.count_append, hcz.2]; omega
  have hc0 : (y0 ++ ps.map Prod.snd).count 0 = y0.count 0 + ps.length := by
    rw [List.count_append, hcz.1, List.length_map]
  have hlen2 : ps.length = scenes.length * ((y0.count 1 - y0.count 0) / scenes.length) := by
    rw [hlen, hq]
  have hdm := Nat.div_add_mod (y0.count 1 - y0.count 0) scenes.length
  have hmod := Nat.mod_lt (y0.count 1 - y0.count 0) hS0
  rw [hc1, hc0, abs_le]
  clear hq hlen hnum h h0
  generalize (y0.count 1 - y0.count 0) / scenes.length = q at hlen2 hdm
  generalize (y0.count 1 - y0.count 0) % scenes.length = w at hdm hmod
  constructor <;> omega

set_option maxRecDepth 4000 in
/-- Counterexample to claim C2 as stated: a single scene whose two label
records are both non-vessels gives `num_img_to_add = -2`, the Python `range`
over the negative per-scene quota is empty, the sampler adds nothing, and the
final imbalance is 2 > 1 = number of scenes. -/
theorem c2_balance_counterexample :
    buildTrain csTwoZeros [] = .ok ([zeroScene10, zeroScene10], [0, 0]) ∧
    ¬ (|(([0, 0] : List Nat).count 1 : Int) - (([0, 0] : List Nat).count 0 : Int)| ≤
        (csTwoZeros.length : Int)) := by
  refine ⟨by decide, by decide⟩

set_option maxRecDepth 4000 in
/-- Witness for C2 at a concrete two-scene dataset with one vessel label. -/
theorem c2_balance_within_scene_count_when_positives_dominate_witness :
    csSplit ≠ [] ∧ extractAllPositives csSplit = .ok ([zeroScene10], [1]) ∧
    ([1] : List Nat).count 0 ≤ ([1] : List Nat).count 1 ∧
    buildTrain csSplit [] = .ok ([zeroScene10], [1]) ∧
    |(([1] : List Nat).count 1 : Int) - (([1] : List Nat).count 0 : Int)| ≤
      (csSplit.length : Int) :=
  ⟨by decide, by decide, by decide, by decide,
    c2_balance_within_scene_count_when_positives_dominate
      (show csSplit ≠ [] by decide)
      (show extractAllPositives csSplit = .ok ([zeroScene10], [1]) by decide)
      (show ([1] : List Nat).count 0 ≤ ([1] : List Nat).count 1 by decide)
      (show buildTrain csSplit [] = .ok ([zeroScene10], [1]) by decide)⟩

/-- Claim C3.  Every tile in an assembled training set (positives and sampled
negatives) and every validation tile has a minimum different from the no-data
sentinel: tiles are only appended behind a `min != -32768.0` test. -/
theorem c3_no_tile_has_sentinel_minimum
    {tscenes vscenes : List SceneData} {st : List (Nat × Nat)}
    {X : List Tile} {y : List Nat} {VX : List Tile} {vy : List Nat}
    (ht : buildTrain tscenes st = .ok (X, y))
    (hv : buildVal vscenes = .ok (VX, vy)) :
    (∀ t ∈ X, tileMin t ≠ some sentinel) ∧ (∀ t ∈ VX, tileMin t ≠ some sentinel) := by
  constructor
  · obtain ⟨X0, y0, ps, hex, hX, hy, hlen, hall⟩ := buildTrain_ok_decomp ht
    subst hX
    obtain ⟨_, _, h3⟩ := extractAllPositives_ok_facts hex
    intro t htm
    rcases List.mem_append.mp htm with hm | hm
    · exact h3 t hm
    · obtain ⟨p, hp, he⟩ := List.mem_map.mp hm
      rw [← he]
      exact (hall p hp).2
  · obtain ⟨_, _, h3⟩ := extractAllPositives_ok_facts hv
    exact h3

set_option maxRecDepth 4000 in
/-- Witness for C3 at a concrete run that triggers the negative sampler. -/
theorem c3_no_tile_has_sentinel_minimum_witness :
    buildTrain csOne [(5, 5)] = .ok ([zeroScene10, tileNeg], [1, 0]) ∧
    buildVal csOne = .ok ([zeroScene10], [1]) ∧
    tileMin zeroScene10 ≠ some sentinel ∧ tileMin tileNeg ≠ some sentinel := by
  have h := c3_no_tile_has_sentinel_minimum
    (show buildTrain csOne [(5, 5)] = .ok ([zeroScene10, tileNeg], [1, 0]) by decide)
    (show buildVal csOne = .ok ([zeroScene10], [1]) by decide)
  exact ⟨by decide, by decide, h.1 zeroScene10 (by decide), h.1 tileNeg (by decide)⟩

/-- Claim C9 (amended).  Candidate centers are drawn from `[W, dim-W)` on each
axis (uniformity is modelled as range membership of the embedded `randint`);
each per-scene run that completes adds exactly its iteration count of tiles,
and the iteration count is the *clamped* quota `max(floor(imbalance/S), 0)`,
not the floor itself (see the counterexample for a negative imbalance). -/
theorem c9_candidate_range_and_clamped_quota :
    (∀ (lo hi : Int) (s : Nat), lo < hi → lo ≤ randint lo hi s ∧ randint lo hi s < hi) ∧
    (∀ (scene : Scene) (labels : List LabelRow) (r : LabelRow) (k : Nat)
      (st : List (Nat × Nat)) (ps : List (Tile × Nat)) (st2 : List (Nat × Nat)),
      addNegatives scene labels r k st = .ok (some (ps, st2)) → ps.length = k) ∧
    (∀ (y : List Nat) (S : Nat), ((negQuota y S).toNat : Int) = max (negQuota y S) 0) :=
  ⟨fun _ _ s h => randint_bounds s h,
   fun _ _ _ _ _ _ _ h => (addNegatives_ok_some h).1,
   fun _ _ => Int.toNat_eq_max _⟩

set_option maxRecDepth 4000 in
/-- Counterexample to claim C9 as stated: with three non-vessel labels in one
scene the global imbalance is -3, so floor(imbalance / S) = -3, yet the code
adds zero negative tiles (the `range` over a negative quota is empty). -/
theorem c9_negative_quota_counterexample :
    buildTrain csThreeZeros [] = .ok ([zeroScene10, zeroScene10, zeroScene10], [0, 0, 0]) ∧
    negQuota [0, 0, 0] csThreeZeros.length = -3 ∧ (0 : Int) ≠ -3 := by
  refine ⟨by decide, by decide, by decide⟩

set_option synthInstance.maxSize 2000 in
/-- Witness for C9 at concrete draws, an empty per-scene run, and a quota. -/
theorem c9_candidate_range_and_clamped_quota_witness :
    ((0 : Int) ≤ randint 0 2 3 ∧ randint 0 2 3 < 2) ∧
    ([] : List (Tile × Nat)).length = 0 ∧
    ((negQuota [1, 1] 2).toNat : Int) = max (negQuota [1, 1] 2) 0 :=
  ⟨c9_candidate_range_and_clamped_quota.1 0 2 3 (by decide),
   c9_candidate_range_and_clamped_quota.2.1 zeroScene10 [] labT 0 [] [] []
     (show addNegatives zeroScene10 [] labT 0 [] = .ok (some ([], [])) by decide),
   c9_candidate_range_and_clamped_quota.2.2 [1, 1] 2⟩

/-- Claim C10.  Tiles and labels stay in lockstep through every stage: equal
lengths after positive extraction, after negative sampling and after
augmentation, and every label appended by the negative sampler is 0. -/
theorem c10_tiles_and_labels_lockstep
    {scenes : List SceneData} {st : List (Nat × Nat)} {X0 : List Tile} {y0 : List Nat}
    {X : List Tile} {y : List Nat}
    (h0 : extractAllPositives scenes = .ok (X0, y0))
    (h : buildTrain scenes st = .ok (X, y)) :
    X0.length = y0.length ∧ X.length = y.length ∧
    (∀ aug : Tile → Tile, (augment aug X y).1.length = (augment aug X y).2.length) ∧
    y.take y0.length = y0 ∧ ∀ l ∈ y.drop y0.length, l = 0 := by
  obtain ⟨X0', y0', ps, hex, hX, hy, hlen, hall⟩ := buildTrain_ok_decomp h
  rw [h0] at hex
  cases hex
  obtain ⟨hl0, _, _⟩ := extractAllPositives_ok_facts h0
  subst hX
  subst hy
  have hXy : (X0 ++ ps.map Prod.fst).length = (y0 ++ ps.map Prod.snd).length := by
    simp [hl0]
  refine ⟨hl0, hXy, ?_, List.take_left y0 _, ?_⟩
  · intro aug
    simp only [augment, List.length_append, List.length_map]
    omega
  · rw [List.drop_left]
    intro l hl
    obtain ⟨p, hp, he⟩ := List.mem_map.mp hl
    rw [← he]
    exact (hall p hp).1

set_option maxRecDepth 4000 in
/-- Witness for C10 at a concrete run that triggers the negative sampler. -/
theorem c10_tiles_and_labels_lockstep_witness :
    extractAllPositives csOne = .ok ([zeroScene10], [1]) ∧
    buildTrain csOne [(5, 5)] = .ok ([zeroScene10, tileNeg], [1, 0]) ∧
    ([zeroScene10] : List Tile).length = ([1] : List Nat).length ∧
    ([zeroScene10, tileNeg] : List Tile).length = ([1, 0] : List Nat).length ∧
    (augment id [zeroScene10, tileNeg] [1, 0]).1.length =
      (augment id [zeroScene10, tileNeg] [1, 0]).2.length ∧
    ([1, 0] : List Nat).take ([1] : List Nat).length = [1] ∧ (0 : Nat) = 0 := by
  have h := c10_tiles_and_labels_lockstep
    (show extractAllPositives csOne = .ok ([zeroScene10], [1]) by decide)
    (show buildTrain csOne [(5, 5)] = .ok ([zeroScene10, tileNeg], [1, 0]) by decide)
  exact ⟨by decide, by decide, h.1, h.2.1, h.2.2.1 id, h.2.2.2.1,
    h.2.2.2.2 0 (by decide)⟩

theorem pyIndex_eq_toNat {n : Nat} {i : Int} (h0 : 0 ≤ i) (h1 : i ≤ (n : Int)) :
    pyIndex n i = i.toNat := by
  unfold pyIndex
  rw [if_neg (by omega)]
  omega

/-- Claim C4.  The claim states that on a scene filled with the no-data
sentinel, extraction yields zero tiles (true) and the negative sampler stops
with a distinct retry-cap error (false): the `while True:` loop has no retry
cap, every candidate is redrawn forever.  For every finite draw stream the
loop neither errors nor produces a tile, i.e. the unbounded loop diverges. -/
theorem c4_sampler_never_terminates_on_all_sentinel_scene
    (scene : Scene) (labels : List LabelRow) (r : LabelRow)
    (hall : ∀ row ∈ scene, ∀ p ∈ row, p = sentinel)
    (hx : 256 < scene.length)
    (hy : 256 < (scene.headD []).length)
    (hrect : ∀ row ∈ scene, row.length = (scene.headD []).length)
    (hlab : ∀ l ∈ labels,
      0 ≤ l.detect_scene_row - 128 ∧ l.detect_scene_row + 128 ≤ (scene.length : Int) ∧
        0 ≤ l.detect_scene_column - 128 ∧
        l.detect_scene_column + 128 ≤ ((scene.headD []).length : Int)) :
    extractPositives scene labels = .ok ([], []) ∧
    (∀ st, sampleOne scene labels r st = .ok none) ∧
    (∀ k st, addNegatives scene labels r (k + 1) st = .ok none) := by
  have hwin : ∀ (r0 r1 c0 c1 : Int), 0 ≤ r0 → r0 < r1 → r1 ≤ (scene.length : Int) →
      0 ≤ c0 → c0 < c1 → c1 ≤ ((scene.headD []).length : Int) →
      tileMin (subset2d scene r0 r1 c0 c1) = some sentinel := by
    intro r0 r1 c0 c1 h1 h2 h3 h4 h5 h6
    apply tileMin_subset2d_const hall
    · rw [pyIndex_eq_toNat h1 (le_trans (le_of_lt h2) h3), pyIndex_eq_toNat (by omega) h3]
      omega
    · intro row hrow
      rw [hrect row hrow]
      rw [pyIndex_eq_toNat h4 (by omega), pyIndex_eq_toNat (by omega) h6]
      omega
  have hsamp : ∀ st, sampleOne scene labels r st = .ok none := by
    have key : ∀ (s : Nat × Nat) (st : List (Nat × Nat)),
        sampleOne scene labels r (s :: st) = sampleOne scene labels r st := by
      intro s st
      rw [sampleOne]
      set x := randint 128 ((scene.length : Int) - 128) s.1 with hxd
      set y := randint 128 (((scene.headD []).length : Int) - 128) s.2 with hyd
      obtain ⟨ha1, ha2⟩ := randint_bounds s.1
        (show (128 : Int) < (scene.length : Int) - 128 by omega)
      obtain ⟨hb1, hb2⟩ := randint_bounds s.2
        (show (128 : Int) < ((scene.headD []).length : Int) - 128 by omega)
      rw [← hxd] at ha1 ha2
      rw [← hyd] at hb1 hb2
      by_cases himg : img_contains_label x y labels r
      · rw [if_pos himg]
      · rw [if_neg himg]
        rw [hwin (x - 128) (x + 128) (y - 128) (y + 128) (by omega) (by omega) (by omega)
          (by omega) (by omega) (by omega)]
        show (if sentinel = sentinel then sampleOne scene labels r st
          else Except.ok (some (subset2d scene (x - 128) (x + 128) (y - 128) (y + 128), st))) =
            sampleOne scene labels r st
        rw [if_pos rfl]
    intro st
    induction st with
    | nil => rfl
    | cons s st ih => rw [key s st]; exact ih
  have hext : ∀ ls : List LabelRow,
      (∀ l ∈ ls,
        0 ≤ l.detect_scene_row - 128 ∧ l.detect_scene_row + 128 ≤ (scene.length : Int) ∧
          0 ≤ l.detect_scene_column - 128 ∧
          l.detect_scene_column + 128 ≤ ((scene.headD []).length : Int)) →
      extractPositives scene ls = .ok ([], []) := by
    intro ls
    induction ls with
    | nil => intro _; rfl
    | cons l ls ih =>
      intro hl
      obtain ⟨b1, b2, b3, b4⟩ := hl l (List.mem_cons_self l ls)
      rw [extractPositives]
      have hm : tileMin (extractWindow scene l) = some sentinel := by
        show tileMin (subset2d scene (l.detect_scene_row - 128) (l.detect_scene_row + 128)
          (l.detect_scene_column - 128) (l.detect_scene_column + 128)) = some sentinel
        exact hwin _ _ _ _ b1 (by omega) b2 b3 (by omega) b4
      rw [hm]
      show (if sentinel = sentinel then extractPositives scene ls else _) = .ok ([], [])
      rw [if_pos rfl]
      exact ih fun z hz => hl z (List.mem_cons_of_mem l hz)
  refine ⟨hext labels hlab, hsamp, ?_⟩
  intro k st
  rw [addNegatives, hsamp st]

theorem sentScene_length : sentScene.length = 300 := by
  unfold sentScene
  exact List.length_replicate 300 _

theorem sentScene_headD : sentScene.headD [] = List.replicate 300 sentinel := rfl

theorem sentScene_rows : ∀ row ∈ sentScene, row = List.replicate 300 sentinel :=
  fun _ h => List.eq_of_mem_replicate h

/-- Witness for C4 at the concrete 300x300 all-sentinel scene. -/
theorem c4_sampler_never_terminates_on_all_sentinel_scene_witness :
    extractPositives sentScene [labA] = .ok ([], []) ∧
    sampleOne sentScene [labA] labA [(0, 0)] = .ok none ∧
    addNegatives sentScene [labA] labA 1 [(0, 0)] = .ok none := by
  have h := c4_sampler_never_terminates_on_all_sentinel_scene sentScene [labA] labA
    (fun row hrow p hp => by
      rw [sentScene_rows row hrow] at hp
      exact List.eq_of_mem_replicate hp)
    (by rw [sentScene_length]; omega)
    (by rw [sentScene_headD, List.length_replicate]; omega)
    (fun row hrow => by
      rw [sentScene_rows row hrow, List.length_replicate, sentScene_headD,
        List.length_replicate])
    (fun l hl => by
      rcases List.mem_cons.mp hl with h | h
      · subst h
        refine ⟨by decide, ?_, by decide, ?_⟩
        · rw [sentScene_length]; decide
        · rw [sentScene_headD, List.length_replicate]; decide
      · cases h)
  exact ⟨h.1, h.2.1 [(0, 0)], h.2.2 0 [(0, 0)]⟩

end VesselSAR
